import Mathlib

set_option autoImplicit false

/-!
Shallow embedding of the `lrlock` Go package: a left-right reader/writer
mutex (`LRMutex`, file `lrlock.go`) built on a distributed reference
counter (`refCount`, file `refcounter.go`).

Modelling conventions:
* Go `int32` counters are modelled as mathematical `Int`.  The only place
  the 32-bit width is observable is the overflow guard in `acquire`, which
  is embedded literally (comparison of the post-increment value with
  `math.MaxInt32 = 2147483647`); the guard keeps every reachable counter
  below that bound, so wrap-around never occurs on reachable states.
* The counters array is modelled as a total map `Nat → Int`; all indices
  produced by `idxForP` are in range of the Go backing array by
  construction.
* Channel operations are modelled by observation flags: `wait` reports
  whether it would block on `waitch` (`blocked`), `release` reports whether
  it performed the aggregation-slot decrement (`touchedAgg`) and whether it
  sent on `waitch` (`signaled`).
* `panic` is modelled as `Except.error` carrying the panic message.
* `sync.Pool` (`refCountPool`) is modelled as always missing: `Get` on a
  `sync.Pool` is allowed to return nil at any time (the runtime may drop
  pooled items), so the always-miss execution is a legal behaviour of the
  source and is the one embedded here.  The `reuse` fast path of
  `allocateRefCount` is embedded exactly.
* The platform hooks `gomaxprocs`, `getp` and `slotsPerCacheLineBits` are
  embedded with the constant values the source stubs return.
-/

namespace LRLock

/-- Go `gomaxprocs()` stub: returns 4 in the source. -/
def gomaxprocs : Nat := 4

/-- Go `getp()` stub: returns 0 in the source. -/
def getp : Nat := 0

/-- Go `slotsPerCacheLineBits()` stub: returns 4 in the source. -/
def slotsPerCacheLineBits : Nat := 4

/-- Go `roundNearestPowerOf2` (bit-smearing round-up to a power of two).
The Go version works on (64-bit) `int`; it is only ever called with the
positive argument `gomaxprocs() + 1`, and on positive arguments below
`2 ^ 32` the `Nat` embedding agrees with the Go code. -/
def roundNearestPowerOf2 (v : Nat) : Nat :=
  let v1 := v - 1
  let v2 := v1 ||| (v1 >>> 1)
  let v3 := v2 ||| (v2 >>> 2)
  let v4 := v3 ||| (v3 >>> 4)
  let v5 := v4 ||| (v4 >>> 8)
  let v6 := v5 ||| (v5 >>> 16)
  v6 + 1

/-- Pointwise update of the counters map (one atomic store/add result). -/
def update (c : Nat → Int) (i : Nat) (v : Int) : Nat → Int :=
  fun j => if j = i then v else c j

/-- Go `refCount`: a distributed reference counter.  `counters` is the
backing `[]int32` array (possibly shared with other instances at other
`offset` values), `pbits` the mangled parallelism field, `offset` the
sub-slot of the cache line this instance owns. -/
structure refCount where
  pbits : Nat
  counters : Nat → Int
  offset : Nat

/-- Go `refCount.maxPid`: `1<<r.pbits - 1`. -/
def refCount.maxPid (r : refCount) : Nat := (1 <<< r.pbits) - 1

/-- Go `refCount.idxForP`: `((p & r.maxPid()) << slotsPerCacheLineBits()) + r.offset`. -/
def refCount.idxForP (r : refCount) (p : Nat) : Nat :=
  ((p &&& r.maxPid) <<< slotsPerCacheLineBits) + r.offset

/-- Go `refCount.acquire`: increment the current core's shard slot and
return its index as the handle; panics if the incremented slot hits
`math.MaxInt32`. -/
def refCount.acquire (r : refCount) : Except String (refCount × Nat) :=
  let idx := r.idxForP (getp + 1)
  let v := r.counters idx + 1
  if v = 2147483647 then
    .error "refCount does not support more than 2 billion acquires."
  else
    .ok ({ r with counters := update r.counters idx v }, idx)

/-- Result of `refCount.release`: the updated counter, whether the
aggregation slot (`idxForP 0`) was decremented, and whether the releaser
sent on `waitch`. -/
structure ReleaseResult where
  rc : refCount
  touchedAgg : Bool
  signaled : Bool

/-- Go `refCount.release`: decrement the handle's slot; if the result went
negative, decrement the aggregation slot and wake the waiter exactly when
that decrement reaches 0. -/
def refCount.release (r : refCount) (idx : Nat) : ReleaseResult :=
  let v := r.counters idx - 1
  let c1 := update r.counters idx v
  if 0 ≤ v then
    ⟨{ r with counters := c1 }, false, false⟩
  else
    let aggIdx := r.idxForP 0
    let a := c1 aggIdx - 1
    let c2 := update c1 aggIdx a
    if a ≠ 0 then
      ⟨{ r with counters := c2 }, true, false⟩
    else
      ⟨{ r with counters := c2 }, true, true⟩

/-- Result of `refCount.wait`: the updated counter and whether the waiter
would block on `waitch` (receive from the channel). -/
structure WaitResult where
  rc : refCount
  blocked : Bool

/-- One iteration of the scan loop in `refCount.wait`: decrement shard `i`
(at slot `g i`) and bump the pending count when the decremented value is
still nonnegative. -/
def waitStep (g : Nat → Nat) (acc : (Nat → Int) × Int) (i : Nat) : (Nat → Int) × Int :=
  let idx := g i
  let v := acc.1 idx - 1
  (update acc.1 idx v, if 0 ≤ v then acc.2 + 1 else acc.2)

/-- Go `refCount.wait`: decrement every shard slot `1 .. maxPid`, counting
as pending those whose decremented value is still nonnegative; if any were
pending, add the count to the aggregation slot and block exactly when the
post-add aggregation value is positive. -/
def refCount.wait (r : refCount) : WaitResult :=
  let scan := (List.range' 1 r.maxPid).foldl (waitStep r.idxForP) (r.counters, 0)
  let pendingSlots := scan.2
  if 0 < pendingSlots then
    let aggIdx := r.idxForP 0
    let a := scan.1 aggIdx + pendingSlots
    let c2 := update scan.1 aggIdx a
    if 0 < a then
      ⟨{ r with counters := c2 }, true⟩
    else
      ⟨{ r with counters := c2 }, false⟩
  else
    ⟨{ r with counters := scan.1 }, false⟩

/-- One iteration of the reset loop in `refCount.clear`. -/
def clearStep (g : Nat → Nat) (c : Nat → Int) (i : Nat) : Nat → Int :=
  update c (g i) 0

/-- Go `refCount.clear`: reset the aggregation slot and every shard slot to 0. -/
def refCount.clear (r : refCount) : refCount :=
  let c0 := update r.counters (r.idxForP 0) 0
  { r with counters := (List.range' 1 r.maxPid).foldl (clearStep r.idxForP) c0 }

/-- Number of shards `refCount.wait` finds armed (still holding at least one
outstanding acquire) when scanning counters `r.counters`: exactly those
shards `1 .. maxPid` whose slot is positive before the scan decrement. -/
def refCount.armedCount (r : refCount) : Nat :=
  ((List.range' 1 r.maxPid).filter (fun i => decide (1 ≤ r.counters (r.idxForP i)))).length

/-- A freshly allocated `refCount` (the `newRc` branch of `allocateRefCount`):
zeroed backing storage, `offset = 0`. -/
def newRefCount (pbits : Nat) : refCount :=
  { pbits := pbits, counters := fun _ => 0, offset := 0 }

/-- The `pbits` value `allocateRefCount` computes:
`uint(roundNearestPowerOf2(gomaxprocs() + 1))`. -/
def allocPbits : Nat := roundNearestPowerOf2 (gomaxprocs + 1)

/-- Go `allocateRefCount`: reuse the given instance when its `pbits`
matches (clearing it), otherwise allocate.  The process-wide `sync.Pool` is
modelled as always missing (a legal `sync.Pool` behaviour), so the pooled
branch collapses into fresh allocation. -/
def allocateRefCount (reuse : Option refCount) : refCount :=
  let pbits := allocPbits
  match reuse with
  | some rc => if rc.pbits = pbits then rc.clear else newRefCount pbits
  | none => newRefCount pbits

/-- Go `LRMutex` after its one-time `init` has run: the packed 2-bit
`state` word (bit 0 = versionIndex, bit 1 = leftRight) and the two
refCounts.  The writer gate `wmu` serialises writers and is not part of
the sequential data state; `once` is modelled by working with initialised
mutexes. -/
structure LRMutex where
  state : Nat
  rc0 : refCount
  rc1 : refCount

/-- Go `l.refCounts[i]` read. -/
def LRMutex.getRC (l : LRMutex) (i : Nat) : refCount :=
  if i = 0 then l.rc0 else l.rc1

/-- Go `l.refCounts[i]` write. -/
def LRMutex.setRC (l : LRMutex) (i : Nat) (rc : refCount) : LRMutex :=
  if i = 0 then { l with rc0 := rc } else { l with rc1 := rc }

/-- Go `LRMutex.init`: `state = 0`, both refCounts freshly allocated. -/
def LRMutex.init : LRMutex :=
  { state := 0, rc0 := allocateRefCount none, rc1 := allocateRefCount none }

/-- Go `LockToken`: writer cursor.  `incrs` counts calls to `Next`. -/
structure LockToken where
  nonzero : Bool
  startIdx : Nat
  incrs : Nat

/-- The zero value of `LockToken` (a Go `LockToken{}`). -/
def LockToken.zero : LockToken := { nonzero := false, startIdx := 0, incrs := 0 }

/-- Go `LRMutex.Lock`: acquire the writer gate, read the leftRight bit,
and issue a token whose `startIdx` is the other data copy.  The gate
acquisition itself does not change any modelled field. -/
def LRMutex.Lock (l : LRMutex) : LockToken :=
  let leftRight := l.state >>> 1
  { nonzero := true, startIdx := (leftRight + 1) % 2, incrs := 0 }

/-- Go `LockToken.waitForNonVersionIndex`: drain (and then reallocate) the
refCount that does not match the versionIndex bit of `state`. -/
def LRMutex.waitForNonVersionIndex (l : LRMutex) (state : Nat) : LRMutex :=
  let i := ((state &&& 1) + 1) % 2
  let rc := l.getRC i
  let drained := (rc.wait).rc
  l.setRC i (allocateRefCount (some drained))

/-- Go `LockToken.Next`: advance the write protocol.  The step-1→2 branch
flips leftRight, drains the non-versionIndex refCount, flips versionIndex,
and drains again. -/
def LockToken.Next (w : LockToken) (l : LRMutex) :
    Except String (Bool × LockToken × LRMutex) :=
  if w.nonzero = false then
    .error "Use of a zero LockToken is invalid."
  else if 3 ≤ w.incrs then
    .error "Cannot call Next() again after it has returned false."
  else if w.incrs = 0 then
    .ok (true, { w with incrs := 1 }, l)
  else if w.incrs = 2 then
    .ok (false, { w with incrs := 3 }, l)
  else
    let state0 := l.state
    let newLeftRight := ((state0 >>> 1) + 1) % 2
    let state1 := (newLeftRight <<< 1) ||| (state0 &&& 1)
    let l1 := { l with state := state1 }
    let l2 := l1.waitForNonVersionIndex state1
    let newVersionIndex := ((state1 &&& 1) + 1) % 2
    let state2 := (state1 &&& 2) ||| newVersionIndex
    let l3 := { l2 with state := state2 }
    let l4 := l3.waitForNonVersionIndex state2
    .ok (true, { w with incrs := 2 }, l4)

/-- Go `LockToken.Idx`: the index the writer should write at this step. -/
def LockToken.Idx (w : LockToken) : Except String Nat :=
  if w.nonzero = false then
    .error "Use of a zero LockToken is invalid."
  else if w.incrs = 0 then
    .error "Cannot call Idx() before calling Next()."
  else if 2 < w.incrs then
    .error "Cannot call Idx() again after Next() has returned false."
  else
    .ok ((w.startIdx + w.incrs - 1) % 2)

/-- Go two's-complement conversion `int(int16(t))` of a 64-bit `int`. -/
def int16cast (t : Int) : Int := (t + 32768) % 65536 - 32768

/-- Go `RLockToken`: reader handle.  `hasRC` models `rc != nil` (it is
false exactly for the zero value `RLockToken{}`); `tok` is the stored
`int16` registration handle. -/
structure RLockToken where
  idx : Nat
  tok : Int
  hasRC : Bool

/-- The zero value of `RLockToken` (a Go `RLockToken{}`): `rc` is nil. -/
def RLockToken.zero : RLockToken := { idx := 0, tok := 0, hasRC := false }

/-- Go `LRMutex.RLock`: pick the active refCount by versionIndex, acquire
a registration slot on it, check the handle fits `int16`, then re-read
`state` for the data-copy index. -/
def LRMutex.RLock (l : LRMutex) : Except String (LRMutex × RLockToken) :=
  let state0 := l.state
  let rc := l.getRC (state0 &&& 1)
  match rc.acquire with
  | .error e => .error e
  | .ok (rcNew, tok) =>
    if int16cast (tok : Int) ≠ (tok : Int) then
      .error "internal state error: refCount returned a token larger than 2^16."
    else
      let l1 := l.setRC (state0 &&& 1) rcNew
      let state1 := l1.state
      let readIdx := (state1 >>> 1) &&& 1
      .ok (l1, { idx := readIdx, tok := (tok : Int), hasRC := true })

/-- Go `RLockToken.Idx` (value receiver). -/
def RLockToken.Idx (r : RLockToken) : Except String Nat :=
  if r.hasRC = false then
    .error "Use of a zero RLockToken is invalid."
  else if r.tok = -1 then
    .error "Use of a RLockToken after RUnlock is invalid."
  else
    .ok r.idx

/-- Go `RLockToken.RUnlock` method body (value receiver `r RLockToken`).
Returns the release effect on the shared refCount together with the final
value of the receiver copy (whose `tok` field the body sets to -1).
For tokens issued by `RLock`, `tok` is nonnegative, so `Int.toNat`
coincides with the Go conversion `int(r.tok)`. -/
def RLockToken.RUnlock (r : RLockToken) (rc : refCount) :
    Except String (ReleaseResult × RLockToken) :=
  if r.hasRC = false then
    .error "Use of a zero RLockToken is invalid."
  else if r.tok = -1 then
    .error "Use of a RLockToken after RUnlock is invalid."
  else
    .ok (rc.release r.tok.toNat, { r with tok := -1 })

/-- A Go call site `r.RUnlock()`: because the receiver is a value, the
method operates on a copy and the caller's token is left unchanged; only
the effect on the pointed-to refCount is observable. -/
def callRUnlock (r : RLockToken) (rc : refCount) : Except String refCount :=
  match r.RUnlock rc with
  | .error e => .error e
  | .ok (res, _) => .ok res.rc

/-- Number of counter slots in one cache line: `1 << slotsPerCacheLineBits()`
(= 16).  Slot `j` of the backing array belongs to the co-resident instance
whose `offset` is `j % slotsPerLine`. -/
def slotsPerLine : Nat := 1 <<< slotsPerCacheLineBits

/-- The scan phase of `refCount.wait` (shards `1 .. maxPid`), named so its
result can be reasoned about: returns the counters after the scan decrements
together with the pending-slot count. -/
def scanExpr (r : refCount) : (Nat → Int) × Int :=
  (List.range' 1 r.maxPid).foldl (waitStep r.idxForP) (r.counters, 0)

/-- A one-shard counter (pbits 1, offset 0) holding one registration on
shard 1 (slot 16). -/
def rcOneArmed : refCount := ⟨1, fun j => if j = 16 then 1 else 0, 0⟩

/-- A one-shard counter (pbits 1, offset 0) with no registrations. -/
def rcIdle : refCount := ⟨1, fun _ => 0, 0⟩

/-- A counters map that agrees with `rcOneArmed.counters` on every slot of
offset 0 (the sub-slot `rcOneArmed` owns) and differs everywhere else. -/
def c2w : Nat → Int := fun j => if j = 16 then 1 else if j % 16 = 0 then 0 else 7

/-! Basic lemmas about the counters map. -/

@[simp]
theorem update_same (c : Nat → Int) (i : Nat) (v : Int) : update c i v i = v := by
  simp [update]

theorem update_other (c : Nat → Int) (i : Nat) (v : Int) {j : Nat} (h : j ≠ i) :
    update c i v j = c j := by
  simp [update, h]

/-! Arithmetic facts about slot indices. -/

theorem maxPid_eq (r : refCount) : r.maxPid = 2 ^ r.pbits - 1 := by
  simp [refCount.maxPid, Nat.shiftLeft_eq]

theorem and_maxPid_of_le (r : refCount) {i : Nat} (h : i ≤ r.maxPid) :
    i &&& r.maxPid = i := by
  rw [maxPid_eq] at h ⊢
  rw [Nat.and_pow_two_sub_one_eq_mod]
  have h1 : 0 < 2 ^ r.pbits := Nat.two_pow_pos r.pbits
  exact Nat.mod_eq_of_lt (by omega)

theorem idxForP_eq_of_le (r : refCount) {i : Nat} (h : i ≤ r.maxPid) :
    r.idxForP i = i * slotsPerLine + r.offset := by
  simp only [refCount.idxForP, and_maxPid_of_le r h, Nat.shiftLeft_eq]
  norm_num [slotsPerLine, slotsPerCacheLineBits, Nat.shiftLeft_eq]

theorem idxForP_zero (r : refCount) : r.idxForP 0 = r.offset := by
  simp [refCount.idxForP, Nat.zero_and, Nat.zero_shiftLeft]

theorem idxForP_mod (r : refCount) (h : r.offset < slotsPerLine) (p : Nat) :
    r.idxForP p % slotsPerLine = r.offset := by
  have h16 : slotsPerLine = 16 := rfl
  rw [h16] at h ⊢
  show ((p &&& r.maxPid) <<< slotsPerCacheLineBits + r.offset) % 16 = r.offset
  rw [Nat.shiftLeft_eq]
  have he : (2 : Nat) ^ slotsPerCacheLineBits = 16 := rfl
  rw [he]
  omega

theorem idxForP_setCounters (r : refCount) (c2 : Nat → Int) (i : Nat) :
    refCount.idxForP { r with counters := c2 } i = r.idxForP i := rfl

theorem maxPid_setCounters (r : refCount) (c2 : Nat → Int) :
    refCount.maxPid { r with counters := c2 } = r.maxPid := rfl

/-! Lemmas about the scan loop of `wait` and the reset loop of `clear`. -/

theorem waitStep_eq (g : Nat → Nat) (c : Nat → Int) (p : Int) (a : Nat) :
    waitStep g (c, p) a =
      (update c (g a) (c (g a) - 1), if 0 ≤ c (g a) - 1 then p + 1 else p) := rfl

theorem waitScan_frame (g : Nat → Nat) :
    ∀ (l : List Nat) (c : Nat → Int) (p : Int) (j : Nat),
      (∀ i ∈ l, g i ≠ j) →
      (l.foldl (waitStep g) (c, p)).1 j = c j := by
  intro l
  induction l with
  | nil => intro c p j _; rfl
  | cons a t ih =>
    intro c p j hj
    rw [List.foldl_cons, waitStep_eq]
    rw [ih _ _ j (fun i hi => hj i (List.mem_cons_of_mem a hi))]
    exact update_other _ _ _ (Ne.symm (hj a (List.mem_cons_self a t)))

theorem waitScan_spec (g : Nat → Nat) :
    ∀ (l : List Nat) (c : Nat → Int) (p : Int),
      (l.map g).Nodup →
      ((∀ i ∈ l, (l.foldl (waitStep g) (c, p)).1 (g i) = c (g i) - 1) ∧
       (l.foldl (waitStep g) (c, p)).2 =
         p + ((l.filter (fun i => decide (1 ≤ c (g i)))).length : Int)) := by
  intro l
  induction l with
  | nil =>
    intro c p _
    exact ⟨fun i hi => absurd hi (List.not_mem_nil i), by simp⟩
  | cons a t ih =>
    intro c p hnd
    rw [List.map_cons, List.nodup_cons] at hnd
    obtain ⟨hga, hnd2⟩ := hnd
    have hne : ∀ i ∈ t, g i ≠ g a := by
      intro i hi heq
      exact hga (heq ▸ List.mem_map_of_mem g hi)
    have ih2 := ih (update c (g a) (c (g a) - 1)) (if 0 ≤ c (g a) - 1 then p + 1 else p) hnd2
    constructor
    · intro i hi
      rw [List.foldl_cons, waitStep_eq]
      rcases List.mem_cons.mp hi with h | h
      · subst h
        rw [waitScan_frame g t _ _ (g i) hne]
        exact update_same _ _ _
      · rw [ih2.1 i h, update_other _ _ _ (hne i h)]
    · rw [List.foldl_cons, waitStep_eq]
      rw [ih2.2]
      have hcnt : (t.filter (fun i => decide (1 ≤ update c (g a) (c (g a) - 1) (g i)))).length
          = (t.filter (fun i => decide (1 ≤ c (g i)))).length := by
        congr 1
        apply List.filter_congr
        intro i hi
        rw [update_other _ _ _ (hne i hi)]
      rw [hcnt]
      by_cases hc : 1 ≤ c (g a)
      · have h1 : (0 : Int) ≤ c (g a) - 1 := by omega
        rw [if_pos h1]
        have h2 : ((a :: t).filter (fun i => decide (1 ≤ c (g i)))).length
            = (t.filter (fun i => decide (1 ≤ c (g i)))).length + 1 := by
          simp [List.filter_cons, hc]
        rw [h2]
        omega
      · have h1 : ¬ (0 : Int) ≤ c (g a) - 1 := by omega
        rw [if_neg h1]
        have h2 : ((a :: t).filter (fun i => decide (1 ≤ c (g i)))).length
            = (t.filter (fun i => decide (1 ≤ c (g i)))).length := by
          simp [List.filter_cons, hc]
        rw [h2]

theorem waitScan_agree (g : Nat → Nat) (o : Nat) :
    ∀ (l : List Nat) (c c2 : Nat → Int) (p : Int),
      (∀ i ∈ l, (g i) % slotsPerLine = o) →
      (∀ j, j % slotsPerLine = o → c j = c2 j) →
      ((l.foldl (waitStep g) (c, p)).2 = (l.foldl (waitStep g) (c2, p)).2 ∧
       (∀ j, j % slotsPerLine = o →
         (l.foldl (waitStep g) (c, p)).1 j = (l.foldl (waitStep g) (c2, p)).1 j)) := by
  intro l
  induction l with
  | nil => intro c c2 p _ hag; exact ⟨rfl, fun j hj => hag j hj⟩
  | cons a t ih =>
    intro c c2 p hown hag
    have hca : c (g a) = c2 (g a) := hag (g a) (hown a (List.mem_cons_self a t))
    rw [List.foldl_cons, List.foldl_cons, waitStep_eq, waitStep_eq, hca]
    apply ih
    · intro i hi
      exact hown i (List.mem_cons_of_mem a hi)
    · intro j hj
      by_cases hja : j = g a
      · subst hja
        rw [update_same, update_same]
      · rw [update_other _ _ _ hja, update_other _ _ _ hja]
        exact hag j hj

theorem clearScan_frame (g : Nat → Nat) :
    ∀ (l : List Nat) (c : Nat → Int) (j : Nat),
      (∀ i ∈ l, g i ≠ j) →
      (l.foldl (clearStep g) c) j = c j := by
  intro l
  induction l with
  | nil => intro c j _; rfl
  | cons a t ih =>
    intro c j hj
    rw [List.foldl_cons]
    rw [ih _ j (fun i hi => hj i (List.mem_cons_of_mem a hi))]
    exact update_other _ _ _ (Ne.symm (hj a (List.mem_cons_self a t)))

/-- Characterization of `refCount.wait` in terms of the named scan. -/
theorem wait_eq (r : refCount) :
    r.wait =
      if 0 < (scanExpr r).2 then
        if 0 < (scanExpr r).1 (r.idxForP 0) + (scanExpr r).2 then
          ⟨{ r with counters := (update (scanExpr r).1 (r.idxForP 0)
              ((scanExpr r).1 (r.idxForP 0) + (scanExpr r).2)) }, true⟩
        else
          ⟨{ r with counters := (update (scanExpr r).1 (r.idxForP 0)
              ((scanExpr r).1 (r.idxForP 0) + (scanExpr r).2)) }, false⟩
      else ⟨{ r with counters := (scanExpr r).1 }, false⟩ := rfl

/-- Replacing the counters map does not change the scan's shards or slots. -/
theorem scanExpr_setCounters (r : refCount) (c2 : Nat → Int) :
    scanExpr { r with counters := c2 } =
      (List.range' 1 r.maxPid).foldl (waitStep r.idxForP) (c2, 0) := rfl

/-- `acquire` fails exactly when the incremented slot hits `MaxInt32`. -/
theorem acquire_error_iff (r : refCount) :
    (∃ e, r.acquire = .error e) ↔
      r.counters (r.idxForP (getp + 1)) + 1 = 2147483647 := by
  constructor
  · rintro ⟨e, he⟩
    by_contra hne
    simp [refCount.acquire, hne] at he
  · intro h
    refine ⟨"refCount does not support more than 2 billion acquires.", ?_⟩
    simp [refCount.acquire, h]

/-- The image of the scanned shard range under `idxForP` has no duplicates. -/
theorem scan_slots_nodup (r : refCount) :
    ((List.range' 1 r.maxPid).map r.idxForP).Nodup := by
  refine List.Nodup.map_on ?_ (List.nodup_range' 1 r.maxPid)
  intro x hx y hy hxy
  rw [List.mem_range'_1] at hx hy
  rw [idxForP_eq_of_le r (by omega : x ≤ r.maxPid),
    idxForP_eq_of_le r (by omega : y ≤ r.maxPid)] at hxy
  have h16 : slotsPerLine = 16 := rfl
  rw [h16] at hxy
  omega

/-- No scanned shard slot is the aggregation slot. -/
theorem scan_slots_ne_agg (r : refCount) :
    ∀ i ∈ List.range' 1 r.maxPid, r.idxForP i ≠ r.idxForP 0 := by
  intro i hi
  rw [List.mem_range'_1] at hi
  rw [idxForP_eq_of_le r (by omega : i ≤ r.maxPid), idxForP_zero]
  have h16 : slotsPerLine = 16 := rfl
  rw [h16]
  omega

/-- C2: the spec (and the field's own comment in the source) say `pbits` is
the number of bits needed to address `maxParallelism + 1` shards — 3 for the
stubbed parallelism of 4, since `roundNearestPowerOf2 5 = 8 = 2 ^ 3`.  The
code instead stores the rounded power-of-two value itself: every freshly
allocated `refCount` gets `pbits = 8`, not `3`. -/
theorem c2_pbits_stores_rounded_value_not_bit_count :
    allocPbits = roundNearestPowerOf2 (gomaxprocs + 1) ∧
    roundNearestPowerOf2 (gomaxprocs + 1) = 2 ^ 3 ∧
    (allocateRefCount none).pbits = 8 ∧
    (allocateRefCount none).pbits ≠ 3 := by
  refine ⟨rfl, by decide, by decide, by decide⟩

/-- C1: a token issued by `Lock` is nonzero at step 0, and `Next` returns
`true` on the first call, `true` on the second, `false` on the third; a
fourth call, or any call on a zero token, is the fatal usage error. -/
theorem c1_write_token_next_true_true_false :
    (∀ l : LRMutex, (l.Lock).nonzero = true ∧ (l.Lock).incrs = 0) ∧
    (∀ (t : LockToken) (lc : LRMutex), t.nonzero = true → t.incrs = 0 →
      t.Next lc = .ok (true, { t with incrs := 1 }, lc)) ∧
    (∀ (t : LockToken) (lc : LRMutex), t.nonzero = true → t.incrs = 1 →
      ∃ lr, t.Next lc = .ok (true, { t with incrs := 2 }, lr)) ∧
    (∀ (t : LockToken) (lc : LRMutex), t.nonzero = true → t.incrs = 2 →
      t.Next lc = .ok (false, { t with incrs := 3 }, lc)) ∧
    (∀ (t : LockToken) (lc : LRMutex), t.nonzero = true → t.incrs = 3 →
      ∃ e, t.Next lc = .error e) ∧
    (∀ (t : LockToken) (lc : LRMutex), t.nonzero = false →
      ∃ e, t.Next lc = .error e) := by
  refine ⟨fun l => ⟨rfl, rfl⟩, ?_, ?_, ?_, ?_, ?_⟩
  · intro t lc h1 h2
    obtain ⟨nz, s, i⟩ := t
    cases h1
    cases h2
    exact rfl
  · intro t lc h1 h2
    obtain ⟨nz, s, i⟩ := t
    cases h1
    cases h2
    exact ⟨_, rfl⟩
  · intro t lc h1 h2
    obtain ⟨nz, s, i⟩ := t
    cases h1
    cases h2
    exact rfl
  · intro t lc h1 h2
    obtain ⟨nz, s, i⟩ := t
    cases h1
    cases h2
    exact ⟨_, rfl⟩
  · intro t lc h1
    obtain ⟨nz, s, i⟩ := t
    cases h1
    exact ⟨_, rfl⟩

/-- Witness for C1 at the initial mutex and concrete tokens. -/
theorem c1_write_token_next_true_true_false_witness :
    ((LRMutex.init.Lock).nonzero = true ∧ (LRMutex.init.Lock).incrs = 0) ∧
    LockToken.Next ⟨true, 1, 0⟩ LRMutex.init = .ok (true, ⟨true, 1, 1⟩, LRMutex.init) ∧
    (∃ lr, LockToken.Next ⟨true, 1, 1⟩ LRMutex.init = .ok (true, ⟨true, 1, 2⟩, lr)) ∧
    LockToken.Next ⟨true, 1, 2⟩ LRMutex.init = .ok (false, ⟨true, 1, 3⟩, LRMutex.init) ∧
    (∃ e, LockToken.Next ⟨true, 1, 3⟩ LRMutex.init = .error e) ∧
    (∃ e, LockToken.Next LockToken.zero LRMutex.init = .error e) :=
  ⟨c1_write_token_next_true_true_false.1 LRMutex.init,
   c1_write_token_next_true_true_false.2.1 ⟨true, 1, 0⟩ LRMutex.init rfl rfl,
   c1_write_token_next_true_true_false.2.2.1 ⟨true, 1, 1⟩ LRMutex.init rfl rfl,
   c1_write_token_next_true_true_false.2.2.2.1 ⟨true, 1, 2⟩ LRMutex.init rfl rfl,
   c1_write_token_next_true_true_false.2.2.2.2.1 ⟨true, 1, 3⟩ LRMutex.init rfl rfl,
   c1_write_token_next_true_true_false.2.2.2.2.2 LockToken.zero LRMutex.init rfl⟩

/-- C4: a write token's `startIdx` is the opposite of the leftRight bit of
`state` at `Lock` time; `Idx` returns `startIdx` at step 1 (`incrs = 1`) and
`1 - startIdx` at step 2 (`incrs = 2`); `Idx` before the first `Next`
(`incrs = 0`) or after `Next` returned false (`incrs = 3`) is the fatal
usage error. -/
theorem c4_write_index_tracks_start_index :
    ∀ l : LRMutex, l.state < 4 →
      (l.Lock).startIdx = 1 - ((l.state >>> 1) &&& 1) ∧
      (l.Lock).startIdx < 2 ∧
      (l.Lock).incrs = 0 ∧
      (∀ t : LockToken, t.nonzero = true → t.startIdx < 2 →
        (t.incrs = 1 → t.Idx = .ok t.startIdx) ∧
        (t.incrs = 2 → t.Idx = .ok (1 - t.startIdx)) ∧
        (t.incrs = 0 → ∃ e, t.Idx = .error e) ∧
        (2 < t.incrs → ∃ e, t.Idx = .error e)) := by
  intro l hl
  have h2 : l.state >>> 1 = l.state / 2 := by
    rw [Nat.shiftRight_eq_div_pow]
  refine ⟨?_, ?_, rfl, ?_⟩
  · simp only [LRMutex.Lock, Nat.and_one_is_mod, h2]
    omega
  · simp only [LRMutex.Lock]
    omega
  · intro t h1 hs
    obtain ⟨nz, s, i⟩ := t
    cases h1
    have hs2 : s < 2 := hs
    refine ⟨?_, ?_, ?_, ?_⟩
    · intro hi
      cases hi
      have hv : (s + 1 - 1) % 2 = s := by omega
      show Except.ok ((s + 1 - 1) % 2) = Except.ok s
      rw [hv]
    · intro hi
      cases hi
      have hv : (s + 2 - 1) % 2 = 1 - s := by omega
      show Except.ok ((s + 2 - 1) % 2) = Except.ok (1 - s)
      rw [hv]
    · intro hi
      cases hi
      exact ⟨_, rfl⟩
    · intro hi
      have hi2 : 2 < i := hi
      have h0 : ¬ (i = 0) := by omega
      refine ⟨"Cannot call Idx() again after Next() has returned false.", ?_⟩
      simp only [LockToken.Idx]
      rw [if_neg (by simp), if_neg h0, if_pos hi2]

/-- Witness for C4 at the initial mutex and concrete step-1/2/0/3 tokens. -/
theorem c4_write_index_tracks_start_index_witness :
    (LRMutex.init.Lock).startIdx = 1 - ((LRMutex.init.state >>> 1) &&& 1) ∧
    LockToken.Idx ⟨true, 1, 1⟩ = .ok 1 ∧
    LockToken.Idx ⟨true, 1, 2⟩ = .ok 0 ∧
    (∃ e, LockToken.Idx ⟨true, 1, 0⟩ = .error e) ∧
    (∃ e, LockToken.Idx ⟨true, 1, 3⟩ = .error e) :=
  have h := c4_write_index_tracks_start_index LRMutex.init (by decide)
  have ht := h.2.2.2 ⟨true, 1, 1⟩ rfl (by decide)
  have ht2 := h.2.2.2 ⟨true, 1, 2⟩ rfl (by decide)
  have ht0 := h.2.2.2 ⟨true, 1, 0⟩ rfl (by decide)
  have ht3 := h.2.2.2 ⟨true, 1, 3⟩ rfl (by decide)
  ⟨h.1, ht.1 rfl, ht2.2.1 rfl, ht0.2.2.1 rfl, ht3.2.2.2 (by decide)⟩

/-- C6: `release` decrements the handle's slot; when the result stays
nonnegative it does nothing else; when it goes negative it also decrements
the aggregation slot (shard 0) and signals the waiter exactly when that
decrement reaches 0. -/
theorem c6_release_decrements_and_signals_last :
    ∀ (r : refCount) (idx : Nat),
      (0 ≤ r.counters idx - 1 →
        (r.release idx).rc.counters = update r.counters idx (r.counters idx - 1) ∧
        (r.release idx).touchedAgg = false ∧
        (r.release idx).signaled = false) ∧
      (r.counters idx - 1 < 0 →
        (r.release idx).touchedAgg = true ∧
        (r.release idx).rc.counters =
          update (update r.counters idx (r.counters idx - 1)) (r.idxForP 0)
            (update r.counters idx (r.counters idx - 1) (r.idxForP 0) - 1) ∧
        ((r.release idx).signaled = true ↔
          update r.counters idx (r.counters idx - 1) (r.idxForP 0) - 1 = 0)) := by
  intro r idx
  constructor
  · intro h
    simp [refCount.release, h]
  · intro h
    have h' : ¬ (0 ≤ r.counters idx - 1) := by omega
    by_cases ha : update r.counters idx (r.counters idx - 1) (r.idxForP 0) - 1 = 0
    · simp [refCount.release, h', ha]
    · simp [refCount.release, h', ha]

/-- Witness for C6: an ordinary release on a positive slot, and a draining
release on a zero slot with one outstanding aggregation count, which
signals. -/
theorem c6_release_decrements_and_signals_last_witness :
    (0 ≤ (fun j => if j = 16 then (1 : Int) else 0) 16 - 1) ∧
    ((refCount.release ⟨1, fun j => if j = 16 then 1 else 0, 0⟩ 16).touchedAgg = false ∧
      (refCount.release ⟨1, fun j => if j = 16 then 1 else 0, 0⟩ 16).signaled = false) ∧
    ((fun j => if j = 0 then (1 : Int) else 0) 16 - 1 < 0) ∧
    ((refCount.release ⟨1, fun j => if j = 0 then 1 else 0, 0⟩ 16).touchedAgg = true ∧
      ((refCount.release ⟨1, fun j => if j = 0 then 1 else 0, 0⟩ 16).signaled = true ↔
        update (fun j => if j = 0 then (1 : Int) else 0) 16
          ((fun j => if j = 0 then (1 : Int) else 0) 16 - 1)
          (refCount.idxForP ⟨1, fun j => if j = 0 then 1 else 0, 0⟩ 0) - 1 = 0)) :=
  have h1 := (c6_release_decrements_and_signals_last ⟨1, fun j => if j = 16 then 1 else 0, 0⟩ 16).1 (by decide)
  have h2 := (c6_release_decrements_and_signals_last ⟨1, fun j => if j = 0 then 1 else 0, 0⟩ 16).2 (by decide)
  ⟨by decide, ⟨h1.2.1, h1.2.2⟩, by decide, ⟨h2.1, h2.2.2⟩⟩

/-- C8: `acquire` fails fatally exactly when the incremented shard slot
reaches `math.MaxInt32`; the `int(int16(tok)) != tok` guard in `RLock`
rejects exactly the handles outside the signed 16-bit range, and `RLock`
fails fatally on such a handle. -/
theorem c8_fatal_on_counter_and_handle_overflow :
    (∀ r : refCount,
      ((∃ e, r.acquire = .error e) ↔ r.counters (r.idxForP (getp + 1)) + 1 = 2147483647)) ∧
    (∀ t : Int, int16cast t ≠ t ↔ (t < -32768 ∨ 32767 < t)) ∧
    (∀ (l : LRMutex) (rc2 : refCount) (tok : Nat),
      (l.getRC (l.state &&& 1)).acquire = .ok (rc2, tok) →
      32767 < tok →
      ∃ e, l.RLock = .error e) := by
  refine ⟨?_, ?_, ?_⟩
  · exact acquire_error_iff
  · intro t
    simp only [int16cast, ne_eq]
    omega
  · intro l rc2 tok hacq htok
    have hne : int16cast (tok : Int) ≠ (tok : Int) := by
      simp only [int16cast, ne_eq]
      omega
    refine ⟨"internal state error: refCount returned a token larger than 2^16.", ?_⟩
    simp only [LRMutex.RLock]
    rw [hacq]
    exact if_pos hne

/-- Witness for C8: a slot one below `MaxInt32` makes `acquire` fail; the
handle 40016 (offset 40000) fails the `int16` guard and makes `RLock` fail. -/
theorem c8_fatal_on_counter_and_handle_overflow_witness :
    (∃ e, refCount.acquire ⟨1, fun _ => 2147483646, 0⟩ = .error e) ∧
    int16cast 40016 ≠ 40016 ∧
    (∃ e, (LRMutex.RLock ⟨0, ⟨1, fun _ => 0, 40000⟩, ⟨1, fun _ => 0, 40000⟩⟩) = .error e) :=
  ⟨(c8_fatal_on_counter_and_handle_overflow.1 ⟨1, fun _ => 2147483646, 0⟩).mpr (by decide),
   (c8_fatal_on_counter_and_handle_overflow.2.1 40016).mpr (Or.inr (by decide)),
   c8_fatal_on_counter_and_handle_overflow.2.2
     ⟨0, ⟨1, fun _ => 0, 40000⟩, ⟨1, fun _ => 0, 40000⟩⟩
     ⟨1, update (fun _ => 0) 40016 1, 40000⟩ 40016 rfl (by decide)⟩

/-- C10: on a counter with all slots nonnegative, `acquire` followed by
`release` of the returned handle restores every slot and the release takes
the ordinary path (no aggregation-slot touch, no signal). -/
theorem c10_acquire_release_roundtrip :
    ∀ (r rc2 : refCount) (h : Nat),
      (∀ j, 0 ≤ r.counters j) →
      r.acquire = .ok (rc2, h) →
      (rc2.release h).touchedAgg = false ∧
      (rc2.release h).signaled = false ∧
      (∀ j, (rc2.release h).rc.counters j = r.counters j) := by
  intro r rc2 h hnn hacq
  simp only [refCount.acquire] at hacq
  split at hacq
  · exact Except.noConfusion hacq
  · cases hacq
    have hx := hnn (r.idxForP (getp + 1))
    have hv : (0 : Int) ≤ update r.counters (r.idxForP (getp + 1))
        (r.counters (r.idxForP (getp + 1)) + 1) (r.idxForP (getp + 1)) - 1 := by
      rw [update_same]
      omega
    refine ⟨?_, ?_, ?_⟩
    · simp only [refCount.release]
      rw [if_pos hv]
    · simp only [refCount.release]
      rw [if_pos hv]
    · intro j
      simp only [refCount.release]
      rw [if_pos hv]
      by_cases hj : j = r.idxForP (getp + 1)
      · subst hj
        simp
      · simp [update_other _ _ _ hj]

/-- Witness for C10 on a fresh one-shard counter. -/
theorem c10_acquire_release_roundtrip_witness :
    (∀ j, 0 ≤ (newRefCount 1).counters j) ∧
    ((refCount.release ⟨1, update (fun _ => 0) 16 1, 0⟩ 16).touchedAgg = false ∧
     (refCount.release ⟨1, update (fun _ => 0) 16 1, 0⟩ 16).signaled = false ∧
     (∀ j, (refCount.release ⟨1, update (fun _ => 0) 16 1, 0⟩ 16).rc.counters j =
        (newRefCount 1).counters j)) :=
  ⟨fun _ => le_refl 0,
   c10_acquire_release_roundtrip (newRefCount 1) ⟨1, update (fun _ => 0) 16 1, 0⟩ 16
     (fun _ => le_refl 0) rfl⟩

/-- C3: the zero-value checks hold (`Idx`/`RUnlock` on a zero token are the
fatal usage error), but the double-release check does not: `RUnlock` has a
value receiver, so its `r.tok = -1` write is invisible to the caller, and a
second `RUnlock()` on the same token (slot 16 holding one registration)
returns `.ok` — silently decrementing shard slot 16 again (to -1) and the
aggregation slot 0 (to -1) — where the claim requires a fatal error. -/
theorem c3_double_runlock_not_detected :
    RLockToken.Idx RLockToken.zero = .error "Use of a zero RLockToken is invalid." ∧
    RLockToken.RUnlock RLockToken.zero ⟨8, fun j => if j = 16 then 1 else 0, 0⟩ =
      .error "Use of a zero RLockToken is invalid." ∧
    callRUnlock ⟨0, 16, true⟩ ⟨8, fun j => if j = 16 then 1 else 0, 0⟩ =
      .ok ⟨8, update (fun j => if j = 16 then 1 else 0) 16 0, 0⟩ ∧
    callRUnlock ⟨0, 16, true⟩ ⟨8, update (fun j => if j = 16 then 1 else 0) 16 0, 0⟩ =
      .ok ⟨8, update (update (update (fun j => if j = 16 then 1 else 0) 16 0) 16 (-1)) 0 (-1), 0⟩ ∧
    (update (update (update (fun j => if j = 16 then (1 : Int) else 0) 16 0) 16 (-1)) 0 (-1)) 16 = -1 ∧
    (update (update (update (fun j => if j = 16 then (1 : Int) else 0) 16 0) 16 (-1)) 0 (-1)) 0 = -1 := by
  refine ⟨rfl, rfl, rfl, rfl, by decide, by decide⟩

/-- C5: `wait` decrements each shard `1 .. maxPid` once, counts as armed
those whose decremented value is `≥ 0` (i.e. the shards whose slot was
positive); with no armed shard it leaves the aggregation slot alone and
does not block; with armed shards it adds the count to the aggregation slot
and blocks exactly when the post-add value is positive. -/
theorem c5_wait_scans_arms_and_blocks :
    ∀ r : refCount,
      (∀ i, 1 ≤ i → i ≤ r.maxPid →
        (r.wait).rc.counters (r.idxForP i) = r.counters (r.idxForP i) - 1) ∧
      (r.armedCount = 0 →
        (r.wait).rc.counters (r.idxForP 0) = r.counters (r.idxForP 0) ∧
        (r.wait).blocked = false) ∧
      (0 < r.armedCount →
        (r.wait).rc.counters (r.idxForP 0) =
          r.counters (r.idxForP 0) + (r.armedCount : Int) ∧
        ((r.wait).blocked = true ↔
          0 < r.counters (r.idxForP 0) + (r.armedCount : Int))) := by
  intro r
  have hspec := waitScan_spec r.idxForP (List.range' 1 r.maxPid) r.counters 0
    (scan_slots_nodup r)
  have hfr : (scanExpr r).1 (r.idxForP 0) = r.counters (r.idxForP 0) :=
    waitScan_frame r.idxForP (List.range' 1 r.maxPid) r.counters 0 (r.idxForP 0)
      (scan_slots_ne_agg r)
  have harm : (scanExpr r).2 = (r.armedCount : Int) := by
    have h2 : (scanExpr r).2 =
        0 + (((List.range' 1 r.maxPid).filter
          (fun i => decide (1 ≤ r.counters (r.idxForP i)))).length : Int) := hspec.2
    rw [h2]
    simp [refCount.armedCount]
  refine ⟨?_, ?_, ?_⟩
  · intro i h1 h2
    have hi : i ∈ List.range' 1 r.maxPid := by
      rw [List.mem_range'_1]
      omega
    have hmem : (scanExpr r).1 (r.idxForP i) = r.counters (r.idxForP i) - 1 :=
      hspec.1 i hi
    have hne0 : r.idxForP 0 ≠ r.idxForP i := Ne.symm (scan_slots_ne_agg r i hi)
    rw [wait_eq]
    by_cases hp : 0 < (scanExpr r).2
    · rw [if_pos hp]
      by_cases hb : 0 < (scanExpr r).1 (r.idxForP 0) + (scanExpr r).2
      · rw [if_pos hb]
        show update (scanExpr r).1 (r.idxForP 0)
          ((scanExpr r).1 (r.idxForP 0) + (scanExpr r).2) (r.idxForP i) =
            r.counters (r.idxForP i) - 1
        rw [update_other _ _ _ (Ne.symm hne0)]
        exact hmem
      · rw [if_neg hb]
        show update (scanExpr r).1 (r.idxForP 0)
          ((scanExpr r).1 (r.idxForP 0) + (scanExpr r).2) (r.idxForP i) =
            r.counters (r.idxForP i) - 1
        rw [update_other _ _ _ (Ne.symm hne0)]
        exact hmem
    · rw [if_neg hp]
      exact hmem
  · intro h0
    have hp : ¬ 0 < (scanExpr r).2 := by
      rw [harm, h0]
      simp
    rw [wait_eq, if_neg hp]
    exact ⟨hfr, rfl⟩
  · intro h0
    have hp : 0 < (scanExpr r).2 := by
      rw [harm]
      omega
    rw [wait_eq, if_pos hp]
    constructor
    · by_cases hb : 0 < (scanExpr r).1 (r.idxForP 0) + (scanExpr r).2
      · rw [if_pos hb]
        show update (scanExpr r).1 (r.idxForP 0)
          ((scanExpr r).1 (r.idxForP 0) + (scanExpr r).2) (r.idxForP 0) =
            r.counters (r.idxForP 0) + (r.armedCount : Int)
        rw [update_same, hfr, harm]
      · rw [if_neg hb]
        show update (scanExpr r).1 (r.idxForP 0)
          ((scanExpr r).1 (r.idxForP 0) + (scanExpr r).2) (r.idxForP 0) =
            r.counters (r.idxForP 0) + (r.armedCount : Int)
        rw [update_same, hfr, harm]
    · by_cases hb : 0 < (scanExpr r).1 (r.idxForP 0) + (scanExpr r).2
      · rw [if_pos hb]
        rw [hfr, harm] at hb
        simpa using hb
      · rw [if_neg hb]
        rw [hfr, harm] at hb
        simpa using hb

/-- Witness for C5 on a one-shard counter with one registration (armed,
blocks) and an idle one (no arming, no blocking). -/
theorem c5_wait_scans_arms_and_blocks_witness :
    ((rcOneArmed.wait).rc.counters (rcOneArmed.idxForP 1) =
      rcOneArmed.counters (rcOneArmed.idxForP 1) - 1) ∧
    ((rcIdle.wait).rc.counters (rcIdle.idxForP 0) = rcIdle.counters (rcIdle.idxForP 0) ∧
      (rcIdle.wait).blocked = false) ∧
    ((rcOneArmed.wait).rc.counters (rcOneArmed.idxForP 0) =
        rcOneArmed.counters (rcOneArmed.idxForP 0) + (rcOneArmed.armedCount : Int) ∧
      ((rcOneArmed.wait).blocked = true ↔
        0 < rcOneArmed.counters (rcOneArmed.idxForP 0) + (rcOneArmed.armedCount : Int))) :=
  ⟨(c5_wait_scans_arms_and_blocks rcOneArmed).1 1 (by decide) (by decide),
   (c5_wait_scans_arms_and_blocks rcIdle).2.1 (by decide),
   (c5_wait_scans_arms_and_blocks rcOneArmed).2.2 (by decide)⟩

/-- C9: an instance whose `offset` is a valid sub-slot only writes slots at
its own offset — `acquire`, `release` (of a handle at its own offset),
`wait` and `clear` leave every slot at any other offset unchanged — and
only reads slots at its own offset: replacing every other slot's value
changes neither `acquire`'s outcome and handle, nor `release`'s
aggregation/signal behaviour, nor whether `wait` blocks.  Two instances
sharing a counters array under distinct offsets therefore never observe
each other's counts. -/
theorem c9_operations_confined_to_own_offset :
    ∀ r : refCount, r.offset < slotsPerLine →
      (∀ j, j % slotsPerLine ≠ r.offset →
        (∀ rc2 h, r.acquire = .ok (rc2, h) → rc2.counters j = r.counters j) ∧
        (∀ idx, idx % slotsPerLine = r.offset →
          (r.release idx).rc.counters j = r.counters j) ∧
        (r.wait).rc.counters j = r.counters j ∧
        (r.clear).counters j = r.counters j) ∧
      (∀ c2 : Nat → Int, (∀ j, j % slotsPerLine = r.offset → r.counters j = c2 j) →
        ((∀ rc2 h, r.acquire = .ok (rc2, h) →
            ∃ rc3, refCount.acquire { r with counters := c2 } = .ok (rc3, h)) ∧
         ((∃ e, r.acquire = .error e) ↔
            (∃ e, refCount.acquire { r with counters := c2 } = .error e)) ∧
         (∀ idx, idx % slotsPerLine = r.offset →
            (r.release idx).touchedAgg =
              (refCount.release { r with counters := c2 } idx).touchedAgg ∧
            (r.release idx).signaled =
              (refCount.release { r with counters := c2 } idx).signaled) ∧
         (r.wait).blocked = (refCount.wait { r with counters := c2 }).blocked)) := by
  intro r hoff
  have hmodAll : ∀ p, r.idxForP p % slotsPerLine = r.offset := idxForP_mod r hoff
  constructor
  · intro j hj
    have hjne : ∀ p, r.idxForP p ≠ j := fun p he => hj (he ▸ hmodAll p)
    refine ⟨?_, ?_, ?_, ?_⟩
    · intro rc2 h hacq
      simp only [refCount.acquire] at hacq
      split at hacq
      · exact Except.noConfusion hacq
      · cases hacq
        exact update_other _ _ _ (Ne.symm (hjne (getp + 1)))
    · intro idx hidx
      have hji : j ≠ idx := fun he => hj (he ▸ hidx)
      simp only [refCount.release]
      by_cases h1 : 0 ≤ r.counters idx - 1
      · rw [if_pos h1]
        exact update_other _ _ _ hji
      · rw [if_neg h1]
        by_cases h2 : update r.counters idx (r.counters idx - 1) (r.idxForP 0) - 1 ≠ 0
        · rw [if_pos h2]
          show update (update r.counters idx (r.counters idx - 1)) (r.idxForP 0) _ j =
            r.counters j
          rw [update_other _ _ _ (Ne.symm (hjne 0)), update_other _ _ _ hji]
        · rw [if_neg h2]
          show update (update r.counters idx (r.counters idx - 1)) (r.idxForP 0) _ j =
            r.counters j
          rw [update_other _ _ _ (Ne.symm (hjne 0)), update_other _ _ _ hji]
    · have hscanfr : (scanExpr r).1 j = r.counters j :=
        waitScan_frame r.idxForP (List.range' 1 r.maxPid) r.counters 0 j
          (fun i _ => hjne i)
      rw [wait_eq]
      by_cases hp : 0 < (scanExpr r).2
      · rw [if_pos hp]
        by_cases hb : 0 < (scanExpr r).1 (r.idxForP 0) + (scanExpr r).2
        · rw [if_pos hb]
          show update (scanExpr r).1 (r.idxForP 0) _ j = r.counters j
          rw [update_other _ _ _ (Ne.symm (hjne 0))]
          exact hscanfr
        · rw [if_neg hb]
          show update (scanExpr r).1 (r.idxForP 0) _ j = r.counters j
          rw [update_other _ _ _ (Ne.symm (hjne 0))]
          exact hscanfr
      · rw [if_neg hp]
        exact hscanfr
    · simp only [refCount.clear]
      rw [clearScan_frame r.idxForP (List.range' 1 r.maxPid) _ j (fun i _ => hjne i)]
      exact update_other _ _ _ (Ne.symm (hjne 0))
  · intro c2 hag
    have hagOwn : ∀ p, r.counters (r.idxForP p) = c2 (r.idxForP p) :=
      fun p => hag _ (hmodAll p)
    refine ⟨?_, ?_, ?_, ?_⟩
    · intro rc2 h hacq
      simp only [refCount.acquire] at hacq
      split at hacq
      · exact Except.noConfusion hacq
      · cases hacq
        rename ¬ (r.counters (r.idxForP (getp + 1)) + 1 = 2147483647) => hguard
        have hg2 : ¬ (c2 (r.idxForP (getp + 1)) + 1 = 2147483647) := by
          rw [← hagOwn (getp + 1)]
          exact hguard
        refine ⟨{ r with counters := (update c2 (r.idxForP (getp + 1))
          (c2 (r.idxForP (getp + 1)) + 1)) }, ?_⟩
        simp only [refCount.acquire, idxForP_setCounters]
        rw [if_neg hg2]
    · rw [acquire_error_iff, acquire_error_iff]
      simp only [idxForP_setCounters]
      rw [hagOwn (getp + 1)]
    · intro idx hidx
      have hv : r.counters idx = c2 idx := hag idx hidx
      have haeq : update r.counters idx (r.counters idx - 1) (r.idxForP 0) =
          update c2 idx (c2 idx - 1) (r.idxForP 0) := by
        by_cases hz : r.idxForP 0 = idx
        · rw [hz, update_same, update_same, hv]
        · rw [update_other _ _ _ hz, update_other _ _ _ hz]
          exact hag _ (hmodAll 0)
      simp only [refCount.release, idxForP_setCounters]
      by_cases h1 : 0 ≤ r.counters idx - 1
      · have h1b : 0 ≤ c2 idx - 1 := by
          rw [← hv]
          exact h1
        rw [if_pos h1, if_pos h1b]
        exact ⟨rfl, rfl⟩
      · have h1b : ¬ 0 ≤ c2 idx - 1 := by
          rw [← hv]
          exact h1
        rw [if_neg h1, if_neg h1b]
        by_cases h2 : update r.counters idx (r.counters idx - 1) (r.idxForP 0) - 1 ≠ 0
        · have h2b : update c2 idx (c2 idx - 1) (r.idxForP 0) - 1 ≠ 0 := by
            rw [← haeq]
            exact h2
          rw [if_pos h2, if_pos h2b]
          exact ⟨rfl, rfl⟩
        · have h2b : ¬ (update c2 idx (c2 idx - 1) (r.idxForP 0) - 1 ≠ 0) := by
            rw [← haeq]
            exact h2
          rw [if_neg h2, if_neg h2b]
          exact ⟨rfl, rfl⟩
    · have hagree := waitScan_agree r.idxForP r.offset (List.range' 1 r.maxPid)
        r.counters c2 0 (fun i _ => hmodAll i) (fun j hjj => hag j hjj)
      have h2eq : (scanExpr r).2 =
          ((List.range' 1 r.maxPid).foldl (waitStep r.idxForP) (c2, 0)).2 := hagree.1
      have haggeq : (scanExpr r).1 (r.idxForP 0) =
          ((List.range' 1 r.maxPid).foldl (waitStep r.idxForP) (c2, 0)).1 (r.idxForP 0) :=
        hagree.2 _ (hmodAll 0)
      rw [wait_eq, wait_eq]
      simp only [scanExpr_setCounters, idxForP_setCounters]
      rw [← h2eq, ← haggeq]
      by_cases hp : 0 < (scanExpr r).2
      · rw [if_pos hp, if_pos hp]
        by_cases hb : 0 < (scanExpr r).1 (r.idxForP 0) + (scanExpr r).2
        · rw [if_pos hb, if_pos hb]
        · rw [if_neg hb, if_neg hb]
      · rw [if_neg hp, if_neg hp]

/-- Witness for C9: `rcOneArmed` (offset 0) and the foreign slot `j = 1`;
`c2w` agrees with it on offset-0 slots only. -/
theorem c9_operations_confined_to_own_offset_witness :
    ((⟨1, update rcOneArmed.counters 16 2, 0⟩ : refCount).counters 1 = rcOneArmed.counters 1) ∧
    ((rcOneArmed.release 16).rc.counters 1 = rcOneArmed.counters 1) ∧
    ((rcOneArmed.wait).rc.counters 1 = rcOneArmed.counters 1) ∧
    ((rcOneArmed.clear).counters 1 = rcOneArmed.counters 1) ∧
    (∃ rc3, refCount.acquire { rcOneArmed with counters := c2w } = .ok (rc3, 16)) ∧
    ((∃ e, rcOneArmed.acquire = .error e) ↔
      (∃ e, refCount.acquire { rcOneArmed with counters := c2w } = .error e)) ∧
    ((rcOneArmed.release 16).touchedAgg =
        (refCount.release { rcOneArmed with counters := c2w } 16).touchedAgg ∧
      (rcOneArmed.release 16).signaled =
        (refCount.release { rcOneArmed with counters := c2w } 16).signaled) ∧
    ((rcOneArmed.wait).blocked = (refCount.wait { rcOneArmed with counters := c2w }).blocked) :=
  have hag : ∀ j, j % slotsPerLine = rcOneArmed.offset → rcOneArmed.counters j = c2w j := by
    intro j hj
    by_cases h16 : j = 16
    · subst h16
      rfl
    · show (if j = 16 then (1 : Int) else 0) = (if j = 16 then 1 else if j % 16 = 0 then 0 else 7)
      rw [if_neg h16, if_neg h16, if_pos (show j % 16 = 0 from hj)]
  have h := c9_operations_confined_to_own_offset rcOneArmed (by decide)
  have h1 := h.1 1 (by decide)
  have h2 := h.2 c2w hag
  ⟨h1.1 ⟨1, update rcOneArmed.counters 16 2, 0⟩ 16 rfl,
   h1.2.1 16 (by decide),
   h1.2.2.1,
   h1.2.2.2,
   h2.1 ⟨1, update rcOneArmed.counters 16 2, 0⟩ 16 rfl,
   h2.2.1,
   h2.2.2.1 16 (by decide),
   h2.2.2.2⟩

end LRLock
